import Mathlib

/-!
Verification of the inventory segmentation-and-forecasting pipeline.

The development shallowly embeds the two engine functions of the repository:
`abc_segmentation` (src/abc_segmentation.py) and `forecast_item_demand`
(src/forecasting.py).  Monetary values and quantities are embedded as exact
rationals; timestamps as exact rationals counting days, with a fractional
part for the time of day (the repository's `InvoiceDate` column carries
time-of-day and the code never floors it).  The pandas operations used by
the source are embedded by their observable behaviour:

* `groupby(col)[v].sum()` returns one row per distinct key, keys sorted
  ascending (pandas default `sort=True`);
* `sort_values(by=v, ascending=False)`: pandas `nargsort` pre-reverses the
  values and the index, computes an ascending argsort (stable in the
  small-array insertion-sort regime, and pandas' stable-descending
  regression test pins the resulting tie order), and reverses the indexer
  back — so a descending sort keeps equal keys in their input order.  We
  embed it as `reverse`, stable insertion sort ascending, `reverse`;
* float division by a zero denominator does not raise: it produces a
  non-finite float (NaN for 0/0, ±inf otherwise), embedded by `PFloat`.
-/

/-- A float value as produced by the pandas division `CumulativeSum / total`:
either a finite rational or one of the non-finite IEEE values that a zero
denominator produces (`0/0 = NaN`, `x/0 = ±inf`). -/
inductive PFloat where
  | fin (q : ℚ)
  | nan
  | pinf
  | ninf
deriving DecidableEq, Repr

/-- IEEE `<=` on embedded floats: any comparison with NaN is false,
`-inf <= x` and `x <= +inf` hold for non-NaN `x`. -/
def PFloat.le : PFloat → PFloat → Bool
  | .nan, _ => false
  | _, .nan => false
  | .ninf, _ => true
  | _, .ninf => false
  | .fin a, .fin b => decide (a ≤ b)
  | _, .pinf => true
  | .pinf, _ => false

/-- Pandas scalar division `num / total` including the zero-denominator
behaviour (`0/0 = NaN`, `x/0 = ±inf` by the sign of `x`). -/
def pdiv (num total : ℚ) : PFloat :=
  if total = 0 then
    if num = 0 then .nan
    else if 0 < num then .pinf
    else .ninf
  else .fin (num / total)

/-- Insert into a strictly ascending list, dropping duplicates.  This is the
shape of the index pandas `groupby` builds: distinct keys, sorted ascending. -/
def insSortedU {α : Type} [LinearOrder α] (a : α) : List α → List α
  | [] => [a]
  | b :: l =>
    if a < b then a :: b :: l
    else if a = b then b :: l
    else b :: insSortedU a l

/-- The distinct elements of `l`, sorted ascending: pandas `groupby` keys. -/
def sortedUnique {α : Type} [LinearOrder α] (l : List α) : List α :=
  l.foldr insSortedU []

/-- Stable insertion of `a` in front of the first element `b` with `le a b`. -/
def ordInsert {α : Type} (le : α → α → Bool) (a : α) : List α → List α
  | [] => [a]
  | b :: l => if le a b then a :: b :: l else b :: ordInsert le a l

/-- Stable insertion sort: equal elements keep their input order. -/
def insertionSort {α : Type} (le : α → α → Bool) : List α → List α
  | [] => []
  | a :: l => ordInsert le a (insertionSort le l)

/-- One row of the DataFrame returned by `abc_segmentation`: the grouped
item key, its aggregated value, and the added `CumulativeSum`,
`CumulativePerc` and `ABC_Category` columns.  The item-key type is the
`item_column`'s dtype, any linearly ordered type (main.py casts the stock
codes to strings; the grouping logic only uses the dtype's order). -/
structure ABCRow (κ : Type) where
  item : κ
  total : ℚ
  cumSum : ℚ
  cumPerc : PFloat
  category : Char
deriving DecidableEq, Repr

/-- The inner classifier of `abc_segmentation` (src/abc_segmentation.py,
`get_category`): `cum_perc <= thresholds[0]` gives A, else
`cum_perc <= thresholds[1]` gives B, else C. -/
def get_category (thresholds : ℚ × ℚ) (cum_perc : PFloat) : Char :=
  if cum_perc.le (.fin thresholds.1) then 'A'
  else if cum_perc.le (.fin thresholds.2) then 'B'
  else 'C'

/-- `df.groupby(item_column)[value_column].sum().reset_index()`: one row per
distinct key (keys ascending), carrying the group's summed value. -/
def groupedTotals {α κ : Type} [LinearOrder κ] [DecidableEq κ]
    (df : List α) (value : α → ℚ) (item : α → κ) : List (κ × ℚ) :=
  (sortedUnique (df.map item)).map
    (fun k => (k, ((df.filter (fun x => item x == k)).map value).sum))

/-- `grouped.sort_values(by=value_column, ascending=False)`: pandas
`nargsort` pre-reverses the rows, computes an ascending stable argsort of
the value column, and reverses the resulting order back, so rows with equal
values keep their input order (stable descending sort). -/
def sort_values_desc {κ : Type} (l : List (κ × ℚ)) : List (κ × ℚ) :=
  (insertionSort (fun a b => decide (a.2 ≤ b.2)) l.reverse).reverse

/-- The cumulative-sum / share / category sweep of `abc_segmentation`:
running sum `acc`, `CumulativePerc = CumulativeSum / grandTotal` (pandas
division, so a zero grand total gives non-finite shares, not an error),
category via `get_category`. -/
def buildRows {κ : Type} (thresholds : ℚ × ℚ) (grandTotal : ℚ) :
    ℚ → List (κ × ℚ) → List (ABCRow κ)
  | _, [] => []
  | acc, (k, v) :: rest =>
    let c := acc + v
    let p := pdiv c grandTotal
    ⟨k, v, c, p, get_category thresholds p⟩ :: buildRows thresholds grandTotal c rest

/-- src/abc_segmentation.py, `abc_segmentation`: group by item, sum the value
column, sort descending by total, add cumulative sum, cumulative share
(divided by the grand total of the value column) and the ABC category.
The function is total: no code path raises. -/
def abc_segmentation {α κ : Type} [LinearOrder κ] [DecidableEq κ]
    (df : List α) (value : α → ℚ) (item : α → κ)
    (thresholds : ℚ × ℚ) : List (ABCRow κ) :=
  let grouped := groupedTotals df value item
  let sorted := sort_values_desc grouped
  let grandTotal := (sorted.map Prod.snd).sum
  buildRows thresholds grandTotal 0 sorted

/-!
The forecast engine (src/forecasting.py, `forecast_item_demand`).

The embedding keeps the columns the function reads: the hardcoded
`'StockCode'` filter column, the `date_column` (dates as integer day
numbers, already parseable per the precondition, so the pre-`try`
`pd.to_datetime` conversion cannot fail) and the `value_column`.

The external Prophet library enters the embedding in two ways:

* `model.fit` and `model.predict` are numerical routines that can raise;
  their outcome is a parameter `fit` of the embedding, producing either an
  exception or a prediction function (point, lower, upper per date);
* `model.make_future_dataframe` is deterministic date arithmetic, embedded
  from the library's implementation: `pd.date_range` from the maximum
  history date over `periods + 1` days (raising `ValueError` when
  `periods + 1 < 0`), keep the dates strictly after the last date, truncate
  to `periods`, and prepend the (sorted, distinct) history dates.

The Python `try`/`except` around fitting, prediction and plotting catches
every exception and returns the `(None, None, None)` sentinel; the embedding
returns `Except PErr (Option ForecastSuccess)` where the outer `Except`
carries an exception propagating to the caller and `Option.none` is the
sentinel triple.
-/

/-- A transaction row with the columns `forecast_item_demand` reads.  The
`invoiceDate` is the raw timestamp produced by `pd.to_datetime`: measured in
days, with a fractional part for the time of day — the source never floors
it to a calendar day. -/
structure Txn where
  stockCode : String
  invoiceDate : ℚ
  quantity : ℚ
deriving DecidableEq, Repr

/-- A Python exception inside the forecast engine. -/
inductive PErr where
  | valueError
  | fitError
deriving DecidableEq, Repr

/-- One row of the DataFrame returned by `model.predict`:
`ds`, `yhat`, `yhat_lower`, `yhat_upper`. -/
structure ForecastRow where
  ds : ℚ
  yhat : ℚ
  yhatLower : ℚ
  yhatUpper : ℚ
deriving DecidableEq, Repr

/-- The successful return value of `forecast_item_demand`: the triple
`(forecast, model, fig)`.  The fitted model object is represented by the
history dates it stores (`model.history_dates`); the Plotly figure carries
no data the pipeline reads and is represented by `Unit`. -/
structure ForecastSuccess where
  forecast : List ForecastRow
  model : List ℚ
  fig : Unit
deriving DecidableEq, Repr

/-- Maximum of a list of dates, as `history_dates.max()`. -/
def maxDate (l : List ℚ) : ℚ := l.foldl max (l.headD 0)

/-- The aggregation step of `forecast_item_demand`: filter the rows to the
requested stock code, group by the raw `date_column` values (distinct
timestamps, ascending) and sum the value column.  Despite the source's
"Aggregate daily demand" comment there is no flooring to the calendar day:
two transactions at different times of the same day form two distinct rows.
The result is the `(ds, y)` frame handed to Prophet. -/
def dailyAgg (df : List Txn) (item_code : String) : List (ℚ × ℚ) :=
  let item_df := df.filter (fun t => t.stockCode == item_code)
  (sortedUnique (item_df.map (·.invoiceDate))).map
    (fun d => (d, ((item_df.filter (fun t => t.invoiceDate == d)).map (·.quantity)).sum))

/-- A run of consecutive daily timestamps: `pd.date_range(start, periods=n,
freq='D')` yields `start`, `start` + 1 day, ..., preserving the time of
day. -/
def dateRange (start : ℚ) : ℕ → List ℚ
  | 0 => []
  | n + 1 => start :: dateRange (start + 1) n

/-- Prophet's `make_future_dataframe(periods)` with `include_history=True`
(the call site's default): `pd.date_range(start=last_date, periods=periods+1)`
(raising on a negative sample count), keep dates strictly after `last_date`,
truncate to `periods` entries, and concatenate after the history dates.
`history_dates.max()` on an empty history is an error. -/
def make_future_dataframe (historyDates : List ℚ) (periods : Int) :
    Except PErr (List ℚ) :=
  match historyDates with
  | [] => .error .valueError
  | _ :: _ =>
    let lastDate := maxDate historyDates
    if periods + 1 < 0 then .error .valueError
    else
      let dates := dateRange lastDate (periods + 1).toNat
      let dates := dates.filter (fun d => decide (lastDate < d))
      let dates := dates.take periods.toNat
      .ok (historyDates ++ dates)

/-- The body of the `try` block of `forecast_item_demand`: fit the model on
the daily series, build the future frame, predict a row for every date of
the frame, and build the Plotly figure.  Any step may raise. -/
def forecastTry (fit : List (ℚ × ℚ) → Except PErr (ℚ → ℚ × ℚ × ℚ))
    (daily : List (ℚ × ℚ)) (periods : Int) : Except PErr ForecastSuccess :=
  match fit daily with
  | .error e => .error e
  | .ok pred =>
    match make_future_dataframe (daily.map Prod.fst) periods with
    | .error e => .error e
    | .ok future =>
      .ok ⟨future.map (fun d => ⟨d, (pred d).1, (pred d).2.1, (pred d).2.2⟩),
           daily.map Prod.fst, ()⟩

/-- src/forecasting.py, `forecast_item_demand`: filter to the item,
aggregate daily demand, return the `(None, None, None)` sentinel when fewer
than 2 daily points exist, otherwise run the fit/predict/plot body under a
blanket `except` that converts every exception into the same sentinel. -/
def forecast_item_demand (fit : List (ℚ × ℚ) → Except PErr (ℚ → ℚ × ℚ × ℚ))
    (df : List Txn) (item_code : String) (periods : Int) :
    Except PErr (Option ForecastSuccess) :=
  let daily := dailyAgg df item_code
  if daily.length < 2 then .ok none
  else
    match forecastTry fit daily periods with
    | .error _ => .ok none
    | .ok s => .ok (some s)

/-- The last observed timestamp of the item's aggregated demand series. -/
def lastObserved (df : List Txn) (item_code : String) : ℚ :=
  maxDate ((dailyAgg df item_code).map Prod.fst)

/-- The number of distinct observed calendar days of an item: distinct
floors of its raw timestamps.  `forecast_item_demand` never computes this —
its `len(daily) < 2` guard counts distinct raw timestamps instead. -/
def observedDays (df : List Txn) (item_code : String) : ℕ :=
  (sortedUnique ((df.filter (fun t => t.stockCode == item_code)).map
    (fun t => ⌊t.invoiceDate⌋))).length

/-! Helper lemmas about the embedded pandas operations. -/

theorem mem_ordInsert {α : Type} (le : α → α → Bool) (a x : α) (l : List α) :
    x ∈ ordInsert le a l ↔ x = a ∨ x ∈ l := by
  induction l with
  | nil => simp [ordInsert]
  | cons b t ih =>
    by_cases h : le a b = true
    · simp [ordInsert, h]
    · simp only [ordInsert, h, Bool.false_eq_true, if_false, List.mem_cons, ih]
      tauto

theorem ordInsert_perm {α : Type} (le : α → α → Bool) (a : α) (l : List α) :
    (ordInsert le a l).Perm (a :: l) := by
  induction l with
  | nil => simp [ordInsert]
  | cons b t ih =>
    by_cases h : le a b = true
    · simp [ordInsert, h]
    · simp only [ordInsert, h, Bool.false_eq_true, if_false]
      exact (ih.cons b).trans (List.Perm.swap a b t)

theorem insertionSort_perm {α : Type} (le : α → α → Bool) (l : List α) :
    (insertionSort le l).Perm l := by
  induction l with
  | nil => simp [insertionSort]
  | cons a t ih =>
    exact (ordInsert_perm le a (insertionSort le t)).trans (ih.cons a)

theorem mem_insertionSort {α : Type} (le : α → α → Bool) (x : α) (l : List α) :
    x ∈ insertionSort le l ↔ x ∈ l :=
  (insertionSort_perm le l).mem_iff

theorem sort_values_desc_perm {κ : Type} (l : List (κ × ℚ)) :
    (sort_values_desc l).Perm l :=
  ((List.reverse_perm _).trans (insertionSort_perm _ l.reverse)).trans
    (List.reverse_perm l)

theorem mem_sort_values_desc {κ : Type} (x : κ × ℚ) (l : List (κ × ℚ)) :
    x ∈ sort_values_desc l ↔ x ∈ l :=
  (sort_values_desc_perm l).mem_iff

theorem mem_insSortedU {α : Type} [LinearOrder α] (a x : α) (l : List α) :
    x ∈ insSortedU a l ↔ x = a ∨ x ∈ l := by
  induction l with
  | nil => simp [insSortedU]
  | cons b t ih =>
    by_cases h1 : a < b
    · simp [insSortedU, h1]
    · by_cases h2 : a = b
      · subst h2
        have he : insSortedU a (a :: t) = a :: t := by
          simp [insSortedU, h1]
        rw [he]
        simp only [List.mem_cons]
        tauto
      · have he : insSortedU a (b :: t) = b :: insSortedU a t := by
          simp only [insSortedU, if_neg h1, if_neg h2]
        rw [he]
        simp only [List.mem_cons, ih]
        tauto

theorem mem_sortedUnique {α : Type} [LinearOrder α] (x : α) (l : List α) :
    x ∈ sortedUnique l ↔ x ∈ l := by
  induction l with
  | nil => simp [sortedUnique]
  | cons a t ih =>
    simp only [sortedUnique, List.foldr_cons, List.mem_cons]
    rw [show t.foldr insSortedU [] = sortedUnique t from rfl] at *
    rw [mem_insSortedU, ih]

theorem pairwise_insSortedU {α : Type} [LinearOrder α] (a : α) (l : List α)
    (h : l.Pairwise (· < ·)) : (insSortedU a l).Pairwise (· < ·) := by
  induction l with
  | nil => simp [insSortedU]
  | cons b t ih =>
    rcases List.pairwise_cons.mp h with ⟨hb, ht⟩
    by_cases h1 : a < b
    · have he : insSortedU a (b :: t) = a :: b :: t := by
        simp only [insSortedU, if_pos h1]
      rw [he]
      refine List.pairwise_cons.mpr ⟨?_, h⟩
      intro x hx
      rcases List.mem_cons.mp hx with rfl | hx
      · exact h1
      · exact h1.trans (hb x hx)
    · by_cases h2 : a = b
      · subst h2
        have he : insSortedU a (a :: t) = a :: t := by
          simp [insSortedU, h1]
        rw [he]; exact h
      · have hba : b < a := lt_of_le_of_ne (not_lt.mp h1) (Ne.symm h2)
        have he : insSortedU a (b :: t) = b :: insSortedU a t := by
          simp only [insSortedU, if_neg h1, if_neg h2]
        rw [he]
        refine List.pairwise_cons.mpr ⟨?_, ih ht⟩
        intro x hx
        rcases (mem_insSortedU a x t).mp hx with rfl | hx
        · exact hba
        · exact hb x hx

theorem sortedUnique_pairwise {α : Type} [LinearOrder α] (l : List α) :
    (sortedUnique l).Pairwise (· < ·) := by
  induction l with
  | nil => exact List.Pairwise.nil
  | cons a t ih => exact pairwise_insSortedU a (sortedUnique t) ih

theorem sortedUnique_ne_nil {α : Type} [LinearOrder α] {l : List α}
    (h : l ≠ []) : sortedUnique l ≠ [] := by
  match l, h with
  | a :: t, _ =>
    intro hnil
    have : a ∈ sortedUnique (a :: t) := (mem_sortedUnique a _).mpr (List.mem_cons_self a t)
    rw [hnil] at this
    exact List.not_mem_nil a this

theorem buildRows_category {κ : Type} (th : ℚ × ℚ) (T : ℚ) (acc : ℚ)
    (l : List (κ × ℚ)) :
    ∀ r ∈ buildRows th T acc l,
      r.cumPerc = pdiv r.cumSum T ∧ r.category = get_category th r.cumPerc := by
  induction l generalizing acc with
  | nil => intro r hr; simp [buildRows] at hr
  | cons p t ih =>
    intro r hr
    obtain ⟨k, v⟩ := p
    rcases List.mem_cons.mp hr with rfl | hr
    · exact ⟨rfl, rfl⟩
    · exact ih _ r hr

theorem buildRows_map_pair {κ : Type} (th : ℚ × ℚ) (T : ℚ) (acc : ℚ)
    (l : List (κ × ℚ)) :
    (buildRows th T acc l).map (fun r => (r.item, r.total)) = l := by
  induction l generalizing acc with
  | nil => rfl
  | cons p t ih =>
    obtain ⟨k, v⟩ := p
    simp only [buildRows, List.map_cons, ih]

theorem length_buildRows {κ : Type} (th : ℚ × ℚ) (T : ℚ) (acc : ℚ)
    (l : List (κ × ℚ)) : (buildRows th T acc l).length = l.length := by
  have := congrArg List.length (buildRows_map_pair th T acc l)
  simpa using this

theorem get_category_fin (th : ℚ × ℚ) (q : ℚ) :
    get_category th (.fin q) =
      if q ≤ th.1 then 'A' else if q ≤ th.2 then 'B' else 'C' := by
  simp only [get_category, PFloat.le, decide_eq_true_eq]

theorem get_category_mem (th : ℚ × ℚ) (p : PFloat) :
    get_category th p = 'A' ∨ get_category th p = 'B' ∨ get_category th p = 'C' := by
  unfold get_category
  split
  · left; rfl
  · split
    · right; left; rfl
    · right; right; rfl

theorem buildRows_all_zero {κ : Type} (th : ℚ × ℚ) (l : List (κ × ℚ)) :
    ∀ acc : ℚ, acc = 0 → (∀ p ∈ l, p.2 = 0) →
      ∀ r ∈ buildRows th 0 acc l, r.cumPerc = .nan ∧ r.category = 'C' := by
  induction l with
  | nil => intro acc _ _ r hr; simp [buildRows] at hr
  | cons p t ih =>
    intro acc hacc hz r hr
    obtain ⟨k, v⟩ := p
    have hv : v = 0 := hz (k, v) (List.mem_cons_self _ _)
    have hc : acc + v = 0 := by rw [hacc, hv]; ring
    rcases List.mem_cons.mp hr with rfl | hr
    · constructor
      · show pdiv (acc + v) 0 = .nan
        rw [hc]; simp [pdiv]
      · show get_category th (pdiv (acc + v) 0) = 'C'
        rw [hc]
        simp [pdiv, get_category, PFloat.le]
    · exact ih (acc + v) hc (fun q hq => hz q (List.mem_cons_of_mem _ hq)) r hr

theorem le_foldl_max (l : List ℚ) : ∀ b : ℚ, b ≤ l.foldl max b := by
  induction l with
  | nil => intro b; exact le_refl b
  | cons a t ih =>
    intro b
    exact le_trans (le_max_left b a) (ih (max b a))

theorem mem_le_foldl_max (l : List ℚ) : ∀ (b x : ℚ), x ∈ l → x ≤ l.foldl max b := by
  induction l with
  | nil => intro b x hx; exact absurd hx (List.not_mem_nil x)
  | cons a t ih =>
    intro b x hx
    rcases List.mem_cons.mp hx with rfl | hx
    · exact le_trans (le_max_right b x) (le_foldl_max t (max b x))
    · exact ih (max b a) x hx

theorem le_maxDate {l : List ℚ} {x : ℚ} (hx : x ∈ l) : x ≤ maxDate l := by
  match l, hx with
  | a :: t, hx => exact mem_le_foldl_max (a :: t) a x hx

theorem length_dateRange (n : ℕ) : ∀ start : ℚ, (dateRange start n).length = n := by
  induction n with
  | zero => intro s; rfl
  | succ n ih => intro s; simp [dateRange, ih]

theorem mem_dateRange_le (n : ℕ) :
    ∀ (start x : ℚ), x ∈ dateRange start n → start ≤ x := by
  induction n with
  | zero => intro s x hx; simp [dateRange] at hx
  | succ n ih =>
    intro s x hx
    rcases List.mem_cons.mp hx with rfl | hx
    · exact le_refl x
    · linarith [ih (s + 1) x hx]

theorem dateRange_eq_range_map (n : ℕ) : ∀ start : ℚ,
    dateRange start n = (List.range n).map (fun i : ℕ => start + (i : ℚ)) := by
  induction n with
  | zero => intro s; rfl
  | succ n ih =>
    intro s
    show s :: dateRange (s + 1) n = _
    rw [ih (s + 1), List.range_succ_eq_map, List.map_cons, List.map_map]
    congr 1
    · simp
    · congr 1
      funext i
      simp only [Function.comp_apply]
      push_cast
      ring

/-- Closed form of `make_future_dataframe` for a non-negative horizon: the
history dates followed by `periods` consecutive daily timestamps starting
one day after the maximum history date. -/
theorem make_future_dataframe_nonneg (h : ℚ) (t : List ℚ) (periods : Int)
    (hp : 0 ≤ periods) :
    make_future_dataframe (h :: t) periods
      = .ok ((h :: t) ++ (List.range periods.toNat).map
          (fun i : ℕ => maxDate (h :: t) + 1 + (i : ℚ))) := by
  have h1 : (periods + 1).toNat = periods.toNat + 1 := by omega
  have key : ((dateRange (maxDate (h :: t)) (periods + 1).toNat).filter
        (fun d => decide (maxDate (h :: t) < d))).take periods.toNat
      = (List.range periods.toNat).map
        (fun i : ℕ => maxDate (h :: t) + 1 + (i : ℚ)) := by
    rw [h1]
    show ((maxDate (h :: t) :: dateRange (maxDate (h :: t) + 1) periods.toNat).filter
        (fun d => decide (maxDate (h :: t) < d))).take periods.toNat = _
    rw [List.filter_cons]
    have h2 : (decide (maxDate (h :: t) < maxDate (h :: t))) = false := by simp
    rw [h2]
    simp only [Bool.false_eq_true, if_false]
    have h3 : (dateRange (maxDate (h :: t) + 1) periods.toNat).filter
          (fun d => decide (maxDate (h :: t) < d))
        = dateRange (maxDate (h :: t) + 1) periods.toNat := by
      refine List.filter_eq_self.mpr ?_
      intro d hd
      have hle := mem_dateRange_le periods.toNat (maxDate (h :: t) + 1) d hd
      simp only [decide_eq_true_eq]
      linarith
    rw [h3, List.take_of_length_le (le_of_eq (length_dateRange _ _)),
      dateRange_eq_range_map]
  rw [make_future_dataframe]
  rw [if_neg (by omega)]
  show Except.ok ((h :: t)
      ++ ((dateRange (maxDate (h :: t)) (periods + 1).toNat).filter
        (fun d => decide (maxDate (h :: t) < d))).take periods.toNat) = _
  rw [key]

/-- `make_future_dataframe` raises a `ValueError` (negative sample count in
`pd.date_range`) whenever `periods ≤ -2`. -/
theorem make_future_dataframe_neg (h : ℚ) (t : List ℚ) (periods : Int)
    (hp : periods ≤ -2) :
    make_future_dataframe (h :: t) periods = .error .valueError := by
  rw [make_future_dataframe]
  rw [if_pos (by omega)]

/-- Case normal form of the `try`-block body. -/
theorem forecastTry_eq (fit : List (ℚ × ℚ) → Except PErr (ℚ → ℚ × ℚ × ℚ))
    (daily : List (ℚ × ℚ)) (periods : Int) :
    forecastTry fit daily periods =
      match fit daily with
      | .error e => .error e
      | .ok pred =>
        match make_future_dataframe (daily.map Prod.fst) periods with
        | .error e => .error e
        | .ok future =>
          .ok ⟨future.map (fun d => ⟨d, (pred d).1, (pred d).2.1, (pred d).2.2⟩),
               daily.map Prod.fst, ()⟩ := rfl

/-- Success normal form of `forecast_item_demand`: with at least two daily
points, a successful external fit and a non-negative horizon, the call
returns the triple whose forecast has one row per history date followed by
one row per horizon day. -/
theorem forecast_success_form (fit : List (ℚ × ℚ) → Except PErr (ℚ → ℚ × ℚ × ℚ))
    (df : List Txn) (item_code : String) (periods : Int)
    (pred : ℚ → ℚ × ℚ × ℚ)
    (h2 : 2 ≤ (dailyAgg df item_code).length)
    (hf : fit (dailyAgg df item_code) = .ok pred)
    (hp : 0 ≤ periods) :
    forecast_item_demand fit df item_code periods
      = .ok (some ⟨((dailyAgg df item_code).map Prod.fst
            ++ (List.range periods.toNat).map
                (fun i : ℕ => lastObserved df item_code + 1 + (i : ℚ))).map
            (fun d => ⟨d, (pred d).1, (pred d).2.1, (pred d).2.2⟩),
          (dailyAgg df item_code).map Prod.fst, ()⟩) := by
  obtain ⟨p, rest, hd⟩ : ∃ p rest, dailyAgg df item_code = p :: rest := by
    rcases hda : dailyAgg df item_code with _ | ⟨p, rest⟩
    · rw [hda] at h2; simp at h2
    · exact ⟨p, rest, rfl⟩
  rw [forecast_item_demand]
  rw [if_neg (by omega)]
  rw [forecastTry_eq, hf, hd, List.map_cons,
    make_future_dataframe_nonneg p.1 (rest.map Prod.fst) periods hp]
  show Except.ok (some _) = _
  have hlast : maxDate (p.1 :: rest.map Prod.fst) = lastObserved df item_code := by
    rw [lastObserved, hd, List.map_cons]
  rw [hlast]

/-- Inversion of a successful `forecast_item_demand` call. -/
theorem forecast_success_inv (fit : List (ℚ × ℚ) → Except PErr (ℚ → ℚ × ℚ × ℚ))
    (df : List Txn) (item_code : String) (periods : Int) (s : ForecastSuccess)
    (hs : forecast_item_demand fit df item_code periods = .ok (some s)) :
    2 ≤ (dailyAgg df item_code).length
    ∧ ∃ pred future, fit (dailyAgg df item_code) = .ok pred
        ∧ make_future_dataframe ((dailyAgg df item_code).map Prod.fst) periods
            = .ok future
        ∧ s = ⟨future.map (fun d => ⟨d, (pred d).1, (pred d).2.1, (pred d).2.2⟩),
               (dailyAgg df item_code).map Prod.fst, ()⟩ := by
  rw [forecast_item_demand] at hs
  by_cases hlen : (dailyAgg df item_code).length < 2
  · rw [if_pos hlen] at hs
    exact absurd hs (by simp)
  · rw [if_neg hlen] at hs
    refine ⟨by omega, ?_⟩
    rw [forecastTry_eq] at hs
    cases hf : fit (dailyAgg df item_code) with
    | error e => rw [hf] at hs; exact absurd hs (by simp)
    | ok pred =>
      rw [hf] at hs
      cases hm : make_future_dataframe ((dailyAgg df item_code).map Prod.fst) periods with
      | error e => rw [hm] at hs; exact absurd hs (by simp)
      | ok future =>
        rw [hm] at hs
        refine ⟨pred, future, rfl, rfl, ?_⟩
        have := Option.some.inj (Except.ok.inj hs)
        exact this.symm

theorem dailyAgg_absent (df : List Txn) (item_code : String)
    (h : ∀ t ∈ df, t.stockCode ≠ item_code) : dailyAgg df item_code = [] := by
  have hf : df.filter (fun t => t.stockCode == item_code) = [] := by
    rw [List.filter_eq_nil_iff]
    intro t ht
    simpa using h t ht
  show (sortedUnique ((df.filter (fun t => t.stockCode == item_code)).map
      (·.invoiceDate))).map _ = []
  rw [hf]
  rfl

/-- C2 counterexample: a call with the contract-violating horizon -2 on an
item with two observed days does not surface any error: the internal
`ValueError` from the date-range construction is swallowed by the blanket
`except` and the call returns the `(None, None, None)` sentinel. -/
theorem c2_counterexample_negative_horizon_no_raise :
    forecast_item_demand (fun _ => .ok (fun _ => ((0 : ℚ), (0 : ℚ), (0 : ℚ))))
      [⟨"X", 0, 5⟩, ⟨"X", 1, 3⟩] "X" (-2) = .ok none := rfl

/-- C2 (amended): the forecast operation never raises to its caller, not
even for contract-violating arguments: for every input and every behaviour
of the external fitting routine the call returns a value, and a horizon
of -2 or less on an item with enough data is converted by the blanket
exception handler into the `(None, None, None)` sentinel instead of
surfacing as an error. -/
theorem c2_never_raises (fit : List (ℚ × ℚ) → Except PErr (ℚ → ℚ × ℚ × ℚ))
    (df : List Txn) (item_code : String) (periods : Int) :
    (∃ r, forecast_item_demand fit df item_code periods = .ok r)
    ∧ (periods ≤ -2 → 2 ≤ (dailyAgg df item_code).length →
        forecast_item_demand fit df item_code periods = .ok none) := by
  constructor
  · rw [forecast_item_demand]
    by_cases hlen : (dailyAgg df item_code).length < 2
    · exact ⟨none, by rw [if_pos hlen]⟩
    · rw [if_neg hlen]
      cases htry : forecastTry fit (dailyAgg df item_code) periods with
      | error e => exact ⟨none, rfl⟩
      | ok s => exact ⟨some s, rfl⟩
  · intro hneg hlen
    obtain ⟨p, rest, hd⟩ : ∃ p rest, dailyAgg df item_code = p :: rest := by
      rcases hda : dailyAgg df item_code with _ | ⟨p, rest⟩
      · rw [hda] at hlen; simp at hlen
      · exact ⟨p, rest, rfl⟩
    rw [forecast_item_demand, if_neg (by omega), forecastTry_eq, hd, List.map_cons,
      make_future_dataframe_neg p.1 (rest.map Prod.fst) periods hneg]
    cases fit (p :: rest) <;> rfl

/-- C2 witness: the amended theorem applied to a concrete two-day item with
horizon -2 and a successful external fit. -/
theorem c2_never_raises_witness :
    (∃ r, forecast_item_demand (fun _ => .ok (fun _ => ((0 : ℚ), (0 : ℚ), (0 : ℚ))))
        [⟨"X", 0, 5⟩, ⟨"X", 1, 3⟩] "X" (-2) = .ok r)
    ∧ forecast_item_demand (fun _ => .ok (fun _ => ((0 : ℚ), (0 : ℚ), (0 : ℚ))))
        [⟨"X", 0, 5⟩, ⟨"X", 1, 3⟩] "X" (-2) = .ok none := by
  have h := c2_never_raises (fun _ => .ok (fun _ => ((0 : ℚ), (0 : ℚ), (0 : ℚ))))
    [⟨"X", 0, 5⟩, ⟨"X", 1, 3⟩] "X" (-2)
  have hlen : (dailyAgg [⟨"X", 0, 5⟩, ⟨"X", 1, 3⟩] "X").length = 2 := rfl
  exact ⟨h.1, h.2 (by norm_num) (by rw [hlen])⟩

/-- C3 counterexample: two transactions of item "X" at two different times
of the same calendar day (raw timestamps 0 and 1/2, i.e. midnight and noon
of day 0).  The item has exactly 1 observed calendar day, yet the guard
counts 2 distinct raw timestamps, so the call proceeds to fit and — with a
successful external fit — returns a forecast, not the insufficient-data
outcome. -/
theorem c3_counterexample_one_day_proceeds_to_fit :
    observedDays [⟨"X", 0, 5⟩, ⟨"X", 1/2, 3⟩] "X" = 1
    ∧ ∃ s, forecast_item_demand (fun _ => .ok (fun _ => ((0 : ℚ), (0 : ℚ), (0 : ℚ))))
        [⟨"X", 0, 5⟩, ⟨"X", 1/2, 3⟩] "X" 30 = .ok (some s) := by
  constructor
  · have hfl : ⌊(1/2 : ℚ)⌋ = 0 := by
      rw [Int.floor_eq_zero_iff]
      constructor <;> norm_num
    norm_num [observedDays, sortedUnique, insSortedU, hfl]
  · refine ⟨_, forecast_success_form _ _ "X" 30 (fun _ => ((0 : ℚ), (0 : ℚ), (0 : ℚ)))
      ?_ rfl (by norm_num)⟩
    have hlen : (dailyAgg [⟨"X", 0, 5⟩, ⟨"X", 1/2, 3⟩] "X").length = 2 := by
      norm_num [dailyAgg, sortedUnique, insSortedU]
    rw [hlen]

/-- C3 (amended): the `(None, None, None)` sentinel is returned without
consulting the fitting routine precisely when the item has fewer than 2
distinct raw timestamps — the code groups the unfloored datetime values, so
this is not "fewer than 2 observed calendar days": two transactions at
different times of one day count as 2 and proceed to fit.  An absent item
(no timestamps at all) behaves identically to insufficient data.  With at
least 2 distinct timestamps the fit is attempted: a successful external fit
on a positive horizon yields a forecast, while a failing fit yields the very
same sentinel, so the sentinel alone implies neither fewer than 2 observed
days nor fewer than 2 timestamps. -/
theorem c3_insufficient_data_boundary
    (fit fit' : List (ℚ × ℚ) → Except PErr (ℚ → ℚ × ℚ × ℚ))
    (df : List Txn) (item_code : String) (periods : Int) :
    ((dailyAgg df item_code).length < 2 →
        forecast_item_demand fit df item_code periods = .ok none
        ∧ forecast_item_demand fit df item_code periods
            = forecast_item_demand fit' df item_code periods)
    ∧ ((∀ t ∈ df, t.stockCode ≠ item_code) →
        forecast_item_demand fit df item_code periods = .ok none)
    ∧ (∀ pred, 2 ≤ (dailyAgg df item_code).length →
        fit (dailyAgg df item_code) = .ok pred → 0 < periods →
        ∃ s, forecast_item_demand fit df item_code periods = .ok (some s))
    ∧ (∀ e, 2 ≤ (dailyAgg df item_code).length →
        fit (dailyAgg df item_code) = .error e →
        forecast_item_demand fit df item_code periods = .ok none) := by
  refine ⟨?_, ?_, ?_, ?_⟩
  · intro hlen
    constructor
    · rw [forecast_item_demand, if_pos hlen]
    · rw [forecast_item_demand, forecast_item_demand, if_pos hlen, if_pos hlen]
  · intro habs
    rw [forecast_item_demand, dailyAgg_absent df item_code habs]
    rfl
  · intro pred hlen hf hp
    exact ⟨_, forecast_success_form fit df item_code periods pred hlen hf hp.le⟩
  · intro e hlen hf
    rw [forecast_item_demand, if_neg (by omega), forecastTry_eq, hf]

/-- C3 witness: the amended theorem applied, first, to an item with a single
raw timestamp (two transactions at the same instant), second, to a
two-timestamp item with a successful fit, and third, to the same item with a
failing fit. -/
theorem c3_insufficient_data_boundary_witness :
    (forecast_item_demand (fun _ => .error .fitError)
        [⟨"X", 0, 5⟩, ⟨"X", 0, 3⟩] "X" 30 = .ok none
      ∧ forecast_item_demand (fun _ => .error .fitError)
          [⟨"X", 0, 5⟩, ⟨"X", 0, 3⟩] "X" 30
        = forecast_item_demand (fun _ => .ok (fun _ => ((0 : ℚ), (0 : ℚ), (0 : ℚ))))
            [⟨"X", 0, 5⟩, ⟨"X", 0, 3⟩] "X" 30)
    ∧ (∃ s, forecast_item_demand (fun _ => .ok (fun _ => ((0 : ℚ), (0 : ℚ), (0 : ℚ))))
        [⟨"X", 0, 5⟩, ⟨"X", 1, 3⟩] "X" 30 = .ok (some s))
    ∧ forecast_item_demand (fun _ => .error .fitError)
        [⟨"X", 0, 5⟩, ⟨"X", 1, 3⟩] "X" 30 = .ok none := by
  refine ⟨?_, ?_, ?_⟩
  · exact (c3_insufficient_data_boundary (fun _ => .error .fitError)
      (fun _ => .ok (fun _ => ((0 : ℚ), (0 : ℚ), (0 : ℚ))))
      [⟨"X", 0, 5⟩, ⟨"X", 0, 3⟩] "X" 30).1
      (by rw [show (dailyAgg [⟨"X", 0, 5⟩, ⟨"X", 0, 3⟩] "X").length = 1 from rfl]; omega)
  · exact (c3_insufficient_data_boundary
      (fun _ => .ok (fun _ => ((0 : ℚ), (0 : ℚ), (0 : ℚ))))
      (fun _ => .error .fitError)
      [⟨"X", 0, 5⟩, ⟨"X", 1, 3⟩] "X" 30).2.2.1 (fun _ => ((0 : ℚ), (0 : ℚ), (0 : ℚ)))
      (by rw [show (dailyAgg [⟨"X", 0, 5⟩, ⟨"X", 1, 3⟩] "X").length = 2 from rfl])
      rfl (by norm_num)
  · exact (c3_insufficient_data_boundary (fun _ => .error .fitError)
      (fun _ => .ok (fun _ => ((0 : ℚ), (0 : ℚ), (0 : ℚ))))
      [⟨"X", 0, 5⟩, ⟨"X", 1, 3⟩] "X" 30).2.2.2 .fitError
      (by rw [show (dailyAgg [⟨"X", 0, 5⟩, ⟨"X", 1, 3⟩] "X").length = 2 from rfl])
      rfl

/-- C6: evaluating a successful call shows the returned value is exactly the
`(forecast, model, fig)` triple: the prediction rows over history plus
horizon, the fitted model (carrying its history dates, whose maximum 1 is
the last observed date), and the figure.  No `split_date` component exists
anywhere in the returned value; main.py re-derives the split itself from the
raw data's maximum date. -/
theorem c6_no_split_date_in_result :
    forecast_item_demand (fun _ => .ok (fun _ => ((0 : ℚ), (0 : ℚ), (0 : ℚ))))
        [⟨"X", 0, 5⟩, ⟨"X", 1, 3⟩] "X" 3
      = .ok (some ⟨[⟨0, 0, 0, 0⟩, ⟨1, 0, 0, 0⟩, ⟨2, 0, 0, 0⟩, ⟨3, 0, 0, 0⟩,
          ⟨4, 0, 0, 0⟩], [0, 1], ()⟩)
    ∧ maxDate [0, 1] = lastObserved [⟨"X", 0, 5⟩, ⟨"X", 1, 3⟩] "X"
    ∧ lastObserved [⟨"X", 0, 5⟩, ⟨"X", 1, 3⟩] "X" = 1 := by
  refine ⟨?_, rfl, rfl⟩
  rw [forecast_success_form (fun _ => .ok (fun _ => ((0 : ℚ), (0 : ℚ), (0 : ℚ))))
    [⟨"X", 0, 5⟩, ⟨"X", 1, 3⟩] "X" 3 (fun _ => ((0 : ℚ), (0 : ℚ), (0 : ℚ)))
    (by rw [show (dailyAgg [⟨"X", 0, 5⟩, ⟨"X", 1, 3⟩] "X").length = 2 from rfl])
    rfl (by norm_num)]
  norm_num [dailyAgg, sortedUnique, insSortedU, lastObserved, maxDate, max_def]
  rw [show Int.toNat 3 = 3 from rfl]
  norm_num [List.range_succ]

/-- C7: for every successful forecast with positive horizon h, the rows
whose date lies strictly after the last observed date are exactly h
daily-contiguous dates (no gaps, no duplicates, since they equal the
arithmetic range last+1, ..., last+h), and the full prediction sequence
covers precisely the observed dates followed by those h future dates. -/
theorem c7_horizon_contiguity (fit : List (ℚ × ℚ) → Except PErr (ℚ → ℚ × ℚ × ℚ))
    (df : List Txn) (item_code : String) (h : Int) (s : ForecastSuccess)
    (hs : forecast_item_demand fit df item_code h = .ok (some s)) (hp : 0 < h) :
    ((s.forecast.filter (fun r => decide (lastObserved df item_code < r.ds))).map
        (·.ds)
      = (List.range h.toNat).map
        (fun i : ℕ => lastObserved df item_code + 1 + (i : ℚ)))
    ∧ (s.forecast.filter (fun r => decide (lastObserved df item_code < r.ds))).length
        = h.toNat
    ∧ s.forecast.map (·.ds)
      = (dailyAgg df item_code).map Prod.fst
        ++ (List.range h.toNat).map
          (fun i : ℕ => lastObserved df item_code + 1 + (i : ℚ)) := by
  obtain ⟨hlen, pred, future, hf, hm, hseq⟩ :=
    forecast_success_inv fit df item_code h s hs
  obtain ⟨p, rest, hd⟩ : ∃ p rest, dailyAgg df item_code = p :: rest := by
    rcases hda : dailyAgg df item_code with _ | ⟨p, rest⟩
    · rw [hda] at hlen; simp at hlen
    · exact ⟨p, rest, rfl⟩
  rw [hd, List.map_cons, make_future_dataframe_nonneg p.1 (rest.map Prod.fst) h hp.le]
    at hm
  have hlastEq : maxDate (p.1 :: rest.map Prod.fst) = lastObserved df item_code := by
    rw [lastObserved, hd, List.map_cons]
  have hfut : future = (p.1 :: rest.map Prod.fst)
      ++ (List.range h.toNat).map
        (fun i : ℕ => lastObserved df item_code + 1 + (i : ℚ)) := by
    have := Except.ok.inj hm
    rw [← this, hlastEq]
  have hforecast : s.forecast = future.map
      (fun d => ⟨d, (pred d).1, (pred d).2.1, (pred d).2.2⟩) := by
    rw [hseq]
  have hfilter : (s.forecast.filter
        (fun r => decide (lastObserved df item_code < r.ds))).map (·.ds)
      = (List.range h.toNat).map
        (fun i : ℕ => lastObserved df item_code + 1 + (i : ℚ)) := by
    rw [hforecast, List.filter_map, hfut, List.filter_append]
    have hh : (p.1 :: rest.map Prod.fst).filter
        ((fun r : ForecastRow => decide (lastObserved df item_code < r.ds)) ∘
          (fun d => ⟨d, (pred d).1, (pred d).2.1, (pred d).2.2⟩)) = [] := by
      rw [List.filter_eq_nil_iff]
      intro d hmem
      simp only [Function.comp_apply, decide_eq_true_eq, not_lt]
      rw [← hlastEq]
      exact le_maxDate hmem
    have hk : ((List.range h.toNat).map
          (fun i : ℕ => lastObserved df item_code + 1 + (i : ℚ))).filter
        ((fun r : ForecastRow => decide (lastObserved df item_code < r.ds)) ∘
          (fun d => ⟨d, (pred d).1, (pred d).2.1, (pred d).2.2⟩))
        = (List.range h.toNat).map
          (fun i : ℕ => lastObserved df item_code + 1 + (i : ℚ)) := by
      refine List.filter_eq_self.mpr ?_
      intro d hmem
      obtain ⟨i, _, rfl⟩ := List.mem_map.mp hmem
      simp only [Function.comp_apply, decide_eq_true_eq]
      have hnn : (0 : ℚ) ≤ (i : ℚ) := Nat.cast_nonneg i
      linarith
    rw [hh, hk, List.nil_append, List.map_map]
    have : ((·.ds) ∘ (fun d : ℚ => (⟨d, (pred d).1, (pred d).2.1, (pred d).2.2⟩
        : ForecastRow))) = id := rfl
    rw [this, List.map_id]
  refine ⟨hfilter, ?_, ?_⟩
  · have hlenf := congrArg List.length hfilter
    rw [List.length_map, List.length_map, List.length_range] at hlenf
    exact hlenf
  · rw [hforecast, List.map_map]
    have : ((·.ds) ∘ (fun d : ℚ => (⟨d, (pred d).1, (pred d).2.1, (pred d).2.2⟩
        : ForecastRow))) = id := rfl
    rw [this, List.map_id, hfut, hd, List.map_cons]

/-- C7 witness: the theorem applied to an item with observed timestamps 0
and 1 and horizon 3; the future rows carry dates 2, 3, 4, the full sequence
dates 0..4. -/
theorem c7_horizon_contiguity_witness :
    ((((⟨[⟨0, 0, 0, 0⟩, ⟨1, 0, 0, 0⟩, ⟨2, 0, 0, 0⟩, ⟨3, 0, 0, 0⟩, ⟨4, 0, 0, 0⟩],
          [0, 1], ()⟩ : ForecastSuccess)).forecast.filter
        (fun r => decide (lastObserved [⟨"X", 0, 5⟩, ⟨"X", 1, 3⟩] "X" < r.ds))).map
        (·.ds)
      = (List.range (3 : Int).toNat).map
        (fun i : ℕ => lastObserved [⟨"X", 0, 5⟩, ⟨"X", 1, 3⟩] "X" + 1 + (i : ℚ)))
    ∧ (((⟨[⟨0, 0, 0, 0⟩, ⟨1, 0, 0, 0⟩, ⟨2, 0, 0, 0⟩, ⟨3, 0, 0, 0⟩, ⟨4, 0, 0, 0⟩],
          [0, 1], ()⟩ : ForecastSuccess)).forecast.filter
        (fun r => decide (lastObserved [⟨"X", 0, 5⟩, ⟨"X", 1, 3⟩] "X" < r.ds))).length
        = (3 : Int).toNat
    ∧ ((⟨[⟨0, 0, 0, 0⟩, ⟨1, 0, 0, 0⟩, ⟨2, 0, 0, 0⟩, ⟨3, 0, 0, 0⟩, ⟨4, 0, 0, 0⟩],
          [0, 1], ()⟩ : ForecastSuccess)).forecast.map (·.ds)
      = (dailyAgg [⟨"X", 0, 5⟩, ⟨"X", 1, 3⟩] "X").map Prod.fst
        ++ (List.range (3 : Int).toNat).map
          (fun i : ℕ => lastObserved [⟨"X", 0, 5⟩, ⟨"X", 1, 3⟩] "X" + 1 + (i : ℚ)) :=
  c7_horizon_contiguity (fun _ => .ok (fun _ => ((0 : ℚ), (0 : ℚ), (0 : ℚ))))
    [⟨"X", 0, 5⟩, ⟨"X", 1, 3⟩] "X" 3
    ⟨[⟨0, 0, 0, 0⟩, ⟨1, 0, 0, 0⟩, ⟨2, 0, 0, 0⟩, ⟨3, 0, 0, 0⟩, ⟨4, 0, 0, 0⟩],
      [0, 1], ()⟩
    (by
      rw [forecast_success_form (fun _ => .ok (fun _ => ((0 : ℚ), (0 : ℚ), (0 : ℚ))))
        [⟨"X", 0, 5⟩, ⟨"X", 1, 3⟩] "X" 3 (fun _ => ((0 : ℚ), (0 : ℚ), (0 : ℚ)))
        (by rw [show (dailyAgg [⟨"X", 0, 5⟩, ⟨"X", 1, 3⟩] "X").length = 2 from rfl])
        rfl (by norm_num)]
      norm_num [dailyAgg, sortedUnique, insSortedU, lastObserved, maxDate, max_def]
      rw [show Int.toNat 3 = 3 from rfl]
      norm_num [List.range_succ])
    (by norm_num)

/-- C9: the segmentation operation applied to an empty transaction set
returns an empty sequence; being a total function of the embedding, it
raises no error. -/
theorem c9_empty_input {α κ : Type} [LinearOrder κ] [DecidableEq κ]
    (value : α → ℚ) (item : α → κ) (thresholds : ℚ × ℚ) :
    abc_segmentation ([] : List α) value item thresholds = [] := rfl

/-- C4: every segmentation row's category is computed by `get_category` on
its cumulative share with inclusive thresholds: share ≤ thresholds.1 gives
'A', else share ≤ thresholds.2 gives 'B', else 'C'; with thresholds
(0.8, 0.95) a share of exactly 0.8 is 'A' and 0.800001 is 'B'; and every row
receives exactly one of the three categories. -/
theorem c4_category_thresholds {α κ : Type} [LinearOrder κ] [DecidableEq κ]
    (df : List α) (value : α → ℚ) (item : α → κ) (th : ℚ × ℚ) (r : ABCRow κ)
    (hr : r ∈ abc_segmentation df value item th) :
    r.category = get_category th r.cumPerc
    ∧ (r.category = 'A' ∨ r.category = 'B' ∨ r.category = 'C')
    ∧ (∀ q : ℚ, r.cumPerc = .fin q →
        ((q ≤ th.1 → r.category = 'A')
         ∧ (¬ q ≤ th.1 → q ≤ th.2 → r.category = 'B')
         ∧ (¬ q ≤ th.1 → ¬ q ≤ th.2 → r.category = 'C')))
    ∧ get_category (0.8, 0.95) (.fin 0.8) = 'A'
    ∧ get_category (0.8, 0.95) (.fin 0.800001) = 'B' := by
  have hcat := (buildRows_category th _ 0 _ r hr).2
  refine ⟨hcat, ?_, ?_, ?_, ?_⟩
  · rw [hcat]; exact get_category_mem th r.cumPerc
  · intro q hq
    rw [hcat, hq, get_category_fin]
    refine ⟨fun h1 => by rw [if_pos h1], fun h1 h2 => ?_, fun h1 h2 => ?_⟩
    · rw [if_neg h1, if_pos h2]
    · rw [if_neg h1, if_neg h2]
  · rw [get_category_fin]; norm_num
  · rw [get_category_fin]; norm_num

/-- C4 witness: the theorem applied to the one-item set {item 1, value 1},
whose single row has cumulative share 1 and category 'C'. -/
theorem c4_category_thresholds_witness :
    let r : ABCRow ℕ := ⟨1, 1, 1, .fin 1, 'C'⟩
    r.category = get_category (0.8, 0.95) r.cumPerc
    ∧ (r.category = 'A' ∨ r.category = 'B' ∨ r.category = 'C')
    ∧ (∀ q : ℚ, r.cumPerc = .fin q →
        ((q ≤ (0.8 : ℚ) → r.category = 'A')
         ∧ (¬ q ≤ (0.8 : ℚ) → q ≤ (0.95 : ℚ) → r.category = 'B')
         ∧ (¬ q ≤ (0.8 : ℚ) → ¬ q ≤ (0.95 : ℚ) → r.category = 'C')))
    ∧ get_category (0.8, 0.95) (.fin 0.8) = 'A'
    ∧ get_category (0.8, 0.95) (.fin 0.800001) = 'B' :=
  c4_category_thresholds [((1 : ℕ), (1 : ℚ))] Prod.snd Prod.fst (0.8, 0.95)
    ⟨1, 1, 1, .fin 1, 'C'⟩
    (by norm_num [abc_segmentation, groupedTotals, sortedUnique, insSortedU,
      sort_values_desc, insertionSort, ordInsert, buildRows, pdiv, get_category,
      PFloat.le])

/-- C1 counterexample: on the non-empty all-zero-value input {(item 1,
value 0)} the segmentation operation does not fail with any error: it
returns a row whose cumulative share is the non-finite NaN (0/0) and whose
category is 'C', i.e. it propagates NaN into the result instead of raising. -/
theorem c1_counterexample_zero_total_no_error :
    abc_segmentation [((1 : ℕ), (0 : ℚ))] Prod.snd Prod.fst (0.8, 0.95)
      = [⟨1, 0, 0, .nan, 'C'⟩] := by
  norm_num [abc_segmentation, groupedTotals, sortedUnique, insSortedU,
    sort_values_desc, insertionSort, ordInsert, buildRows, pdiv, get_category,
    PFloat.le]

/-- C1 (amended): on a transaction set whose aggregated values are all zero
the segmentation operation does not raise a `DegenerateInputError` (no such
error exists in the code and the function is total): it silently returns one
row per distinct item, each with NaN cumulative share and category 'C'. -/
theorem c1_zero_total_nan_rows {α κ : Type} [LinearOrder κ] [DecidableEq κ]
    (df : List α) (value : α → ℚ) (item : α → κ) (th : ℚ × ℚ)
    (hzero : ∀ x ∈ df, value x = 0) :
    (abc_segmentation df value item th).length = (sortedUnique (df.map item)).length
    ∧ ∀ r ∈ abc_segmentation df value item th,
        r.cumPerc = .nan ∧ r.category = 'C' := by
  have hgz : ∀ p ∈ groupedTotals df value item, p.2 = 0 := by
    intro p hp
    obtain ⟨k, hk, rfl⟩ := List.mem_map.mp hp
    refine List.sum_eq_zero ?_
    intro x hx
    obtain ⟨a, ha, rfl⟩ := List.mem_map.mp hx
    exact hzero a (List.mem_of_mem_filter ha)
  have hsz : ∀ p ∈ sort_values_desc (groupedTotals df value item), p.2 = 0 :=
    fun p hp => hgz p ((mem_sort_values_desc p _).mp hp)
  have hT : ((sort_values_desc (groupedTotals df value item)).map Prod.snd).sum = 0 := by
    refine List.sum_eq_zero ?_
    intro x hx
    obtain ⟨p, hp, rfl⟩ := List.mem_map.mp hx
    exact hsz p hp
  constructor
  · show (buildRows th _ 0 _).length = _
    rw [hT, length_buildRows, (sort_values_desc_perm _).length_eq,
      groupedTotals, List.length_map]
  · intro r hr
    have hr' : r ∈ buildRows th 0 0 (sort_values_desc (groupedTotals df value item)) := by
      have h := hr
      simp only [abc_segmentation] at h
      rw [hT] at h
      exact h
    exact buildRows_all_zero th _ 0 rfl hsz r hr'

theorem ordInsert_pairwise_lex {κ : Type} (r : κ → κ → Prop) (a : κ × ℚ)
    (s : List (κ × ℚ))
    (hs : s.Pairwise (fun x y => x.2 < y.2 ∨ (x.2 = y.2 ∧ r x.1 y.1)))
    (ha : ∀ b ∈ s, a.2 = b.2 → r a.1 b.1) :
    (ordInsert (fun x y => decide (x.2 ≤ y.2)) a s).Pairwise
      (fun x y => x.2 < y.2 ∨ (x.2 = y.2 ∧ r x.1 y.1)) := by
  induction s with
  | nil => simp [ordInsert]
  | cons b t ih =>
    rcases List.pairwise_cons.mp hs with ⟨hb, ht⟩
    by_cases hle : a.2 ≤ b.2
    · have he : ordInsert (fun x y => decide (x.2 ≤ y.2)) a (b :: t) = a :: b :: t := by
        simp [ordInsert, hle]
      rw [he]
      refine List.pairwise_cons.mpr ⟨?_, hs⟩
      intro c hc
      rcases List.mem_cons.mp hc with rfl | hc
      · rcases lt_or_eq_of_le hle with h | h
        · exact Or.inl h
        · exact Or.inr ⟨h, ha c (List.mem_cons_self _ _) h⟩
      · rcases hb c hc with h | ⟨h1, _⟩
        · exact Or.inl (lt_of_le_of_lt hle h)
        · rcases lt_or_eq_of_le (hle.trans h1.le) with h | h
          · exact Or.inl h
          · exact Or.inr ⟨h, ha c (List.mem_cons_of_mem _ hc) h⟩
    · have he : ordInsert (fun x y => decide (x.2 ≤ y.2)) a (b :: t)
          = b :: ordInsert (fun x y => decide (x.2 ≤ y.2)) a t := by
        simp [ordInsert, hle]
      rw [he]
      refine List.pairwise_cons.mpr
        ⟨?_, ih ht (fun c hc => ha c (List.mem_cons_of_mem _ hc))⟩
      intro c hc
      rcases (mem_ordInsert _ a c _).mp hc with rfl | hc
      · exact Or.inl (not_le.mp hle)
      · exact hb c hc

theorem insertionSort_pairwise_lex {κ : Type} (r : κ → κ → Prop)
    (l : List (κ × ℚ)) (hl : l.Pairwise (fun x y => r x.1 y.1)) :
    (insertionSort (fun x y => decide (x.2 ≤ y.2)) l).Pairwise
      (fun x y => x.2 < y.2 ∨ (x.2 = y.2 ∧ r x.1 y.1)) := by
  induction l with
  | nil => simp [insertionSort]
  | cons a t ih =>
    rcases List.pairwise_cons.mp hl with ⟨ha, ht⟩
    refine ordInsert_pairwise_lex r a _ (ih ht) ?_
    intro b hb _
    exact ha b ((mem_insertionSort _ b t).mp hb)

theorem buildRows_mem_bounds {κ : Type} (th : ℚ × ℚ) (T : ℚ) (l : List (κ × ℚ)) :
    ∀ acc : ℚ, (∀ p ∈ l, 0 < p.2) →
      ∀ r ∈ buildRows th T acc l,
        acc < r.cumSum ∧ r.cumSum ≤ acc + (l.map Prod.snd).sum
          ∧ r.cumPerc = pdiv r.cumSum T := by
  induction l with
  | nil => intro acc _ r hr; simp [buildRows] at hr
  | cons p t ih =>
    intro acc hpos r hr
    obtain ⟨k, v⟩ := p
    have hv : 0 < v := hpos (k, v) (List.mem_cons_self _ _)
    have htn : 0 ≤ (t.map Prod.snd).sum := by
      refine List.sum_nonneg ?_
      intro x hx
      obtain ⟨q, hq, rfl⟩ := List.mem_map.mp hx
      exact (hpos q (List.mem_cons_of_mem _ hq)).le
    rcases List.mem_cons.mp hr with rfl | hr
    · refine ⟨by simpa using hv, ?_, rfl⟩
      show acc + v ≤ acc + (v + (t.map Prod.snd).sum)
      linarith
    · have := ih (acc + v) (fun q hq => hpos q (List.mem_cons_of_mem _ hq)) r hr
      refine ⟨lt_of_lt_of_le (by linarith) this.1.le, ?_, this.2.2⟩
      calc r.cumSum ≤ acc + v + (t.map Prod.snd).sum := this.2.1
        _ = acc + (v + (t.map Prod.snd).sum) := by ring
        _ = acc + (((k, v) :: t).map Prod.snd).sum := by simp

theorem buildRows_pairwise_cumSum {κ : Type} (th : ℚ × ℚ) (T : ℚ)
    (l : List (κ × ℚ)) :
    ∀ acc : ℚ, (∀ p ∈ l, 0 < p.2) →
      (buildRows th T acc l).Pairwise (fun r r' => r.cumSum < r'.cumSum) := by
  induction l with
  | nil => intro acc _; simp [buildRows]
  | cons p t ih =>
    intro acc hpos
    obtain ⟨k, v⟩ := p
    refine List.pairwise_cons.mpr ⟨?_, ih (acc + v)
      (fun q hq => hpos q (List.mem_cons_of_mem _ hq))⟩
    intro r' hr'
    exact (buildRows_mem_bounds th T t (acc + v)
      (fun q hq => hpos q (List.mem_cons_of_mem _ hq)) r' hr').1

theorem buildRows_getLast_cumSum {κ : Type} (th : ℚ × ℚ) (T : ℚ)
    (l : List (κ × ℚ)) :
    ∀ acc : ℚ, l ≠ [] → ∃ r, (buildRows th T acc l).getLast? = some r
        ∧ r.cumSum = acc + (l.map Prod.snd).sum := by
  induction l with
  | nil => intro acc h; exact absurd rfl h
  | cons p t ih =>
    intro acc _
    obtain ⟨k, v⟩ := p
    match t, ih with
    | [], _ =>
      refine ⟨⟨k, v, acc + v, pdiv (acc + v) T, get_category th (pdiv (acc + v) T)⟩,
        rfl, by simp⟩
    | q :: t', ih =>
      obtain ⟨r, hr, hsum⟩ := ih (acc + v) (List.cons_ne_nil q t')
      refine ⟨r, ?_, by rw [hsum]; simp; ring⟩
      show (buildRows th T acc ((k, v) :: q :: t')).getLast? = some r
      have : buildRows th T acc ((k, v) :: q :: t')
          = ⟨k, v, acc + v, pdiv (acc + v) T, get_category th (pdiv (acc + v) T)⟩
            :: buildRows th T (acc + v) (q :: t') := rfl
      rcases hbr : buildRows th T (acc + v) (q :: t') with _ | ⟨r₁, t₁⟩
      · rw [hbr] at hr; simp at hr
      · rw [hbr] at hr
        rw [this, hbr, List.getLast?_cons_cons]
        exact hr

/-- C5: for every non-empty transaction set satisfying the positivity
precondition, the cumulative shares are finite, non-decreasing in output
order, each lies in (0, 1], and the final one equals exactly 1 (rational
arithmetic models the float computation exactly here, so the "within
floating tolerance" clause is exact equality). -/
theorem c5_cumulative_share_monotone {α κ : Type} [LinearOrder κ] [DecidableEq κ]
    (df : List α) (value : α → ℚ) (item : α → κ) (th : ℚ × ℚ)
    (hne : df ≠ []) (hpos : ∀ x ∈ df, 0 < value x) :
    (abc_segmentation df value item th).Pairwise
        (fun r r' => r.cumPerc.le r'.cumPerc = true)
    ∧ (∀ r ∈ abc_segmentation df value item th,
        ∃ q : ℚ, r.cumPerc = .fin q ∧ 0 < q ∧ q ≤ 1)
    ∧ ((abc_segmentation df value item th).map (·.cumPerc)).getLast?
        = some (.fin 1) := by
  set sorted := sort_values_desc (groupedTotals df value item) with hsorted
  set T := (sorted.map Prod.snd).sum with hT
  have habc : abc_segmentation df value item th = buildRows th T 0 sorted := rfl
  have hgpos : ∀ p ∈ groupedTotals df value item, 0 < p.2 := by
    intro p hp
    obtain ⟨k, hk, rfl⟩ := List.mem_map.mp hp
    obtain ⟨a, ha, rfl⟩ := List.mem_map.mp ((mem_sortedUnique k _).mp hk)
    have hmem : a ∈ df.filter (fun x => item x == item a) :=
      List.mem_filter.mpr ⟨ha, beq_self_eq_true _⟩
    refine List.sum_pos _ ?_ ?_
    · intro x hx
      obtain ⟨b, hb, rfl⟩ := List.mem_map.mp hx
      exact hpos b (List.mem_of_mem_filter hb)
    · intro hnil
      rw [List.map_eq_nil_iff] at hnil
      rw [hnil] at hmem
      exact List.not_mem_nil a hmem
  have hspos : ∀ p ∈ sorted, 0 < p.2 :=
    fun p hp => hgpos p ((mem_sort_values_desc p _).mp hp)
  have hsne : sorted ≠ [] := by
    intro hnil
    have h1 : (groupedTotals df value item).length = 0 := by
      rw [← (sort_values_desc_perm (groupedTotals df value item)).length_eq,
        ← hsorted, hnil, List.length_nil]
    rw [groupedTotals, List.length_map, List.length_eq_zero] at h1
    exact sortedUnique_ne_nil (by simpa using hne) h1
  have hTpos : 0 < T := by
    rw [hT]
    refine List.sum_pos _ ?_ ?_
    · intro x hx
      obtain ⟨p, hp, rfl⟩ := List.mem_map.mp hx
      exact hspos p hp
    · simpa using hsne
  have hfin : ∀ r ∈ abc_segmentation df value item th,
      r.cumPerc = .fin (r.cumSum / T) ∧ 0 < r.cumSum ∧ r.cumSum ≤ T := by
    intro r hr
    rw [habc] at hr
    have hb := buildRows_mem_bounds th T sorted 0 hspos r hr
    refine ⟨?_, by simpa using hb.1, by simpa using hb.2.1⟩
    rw [hb.2.2, pdiv, if_neg (ne_of_gt hTpos)]
  refine ⟨?_, ?_, ?_⟩
  · have hcs : (abc_segmentation df value item th).Pairwise
        (fun r r' => r.cumSum < r'.cumSum) := by
      rw [habc]; exact buildRows_pairwise_cumSum th T sorted 0 hspos
    refine hcs.imp_of_mem ?_
    intro r r' hr hr' hlt
    rw [(hfin r hr).1, (hfin r' hr').1]
    show decide (r.cumSum / T ≤ r'.cumSum / T) = true
    rw [decide_eq_true_eq, div_le_div_iff_of_pos_right hTpos]
    exact hlt.le
  · intro r hr
    obtain ⟨hperc, hlo, hhi⟩ := hfin r hr
    exact ⟨r.cumSum / T, hperc, div_pos hlo hTpos,
      (div_le_one hTpos).mpr hhi⟩
  · obtain ⟨r, hr, hsum⟩ := buildRows_getLast_cumSum th T sorted 0 hsne
    have hmem : r ∈ abc_segmentation df value item th := by
      rw [habc]
      obtain ⟨hne', heq⟩ := List.mem_getLast?_eq_getLast hr
      rw [heq]
      exact List.getLast_mem hne'
    rw [List.getLast?_map, habc, hr]
    have hp := (hfin r hmem).1
    show some r.cumPerc = some (PFloat.fin 1)
    rw [hp, hsum]
    norm_num
    rw [div_self (ne_of_gt hTpos)]

/-- C5 witness: the theorem applied to the concrete positive-valued set
{(item 1, value 1), (item 2, value 3)}. -/
theorem c5_cumulative_share_monotone_witness :
    (abc_segmentation [((1 : ℕ), (1 : ℚ)), ((2 : ℕ), (3 : ℚ))] Prod.snd Prod.fst
        (0.8, 0.95)).Pairwise (fun r r' => r.cumPerc.le r'.cumPerc = true)
    ∧ (∀ r ∈ abc_segmentation [((1 : ℕ), (1 : ℚ)), ((2 : ℕ), (3 : ℚ))] Prod.snd
        Prod.fst (0.8, 0.95), ∃ q : ℚ, r.cumPerc = .fin q ∧ 0 < q ∧ q ≤ 1)
    ∧ ((abc_segmentation [((1 : ℕ), (1 : ℚ)), ((2 : ℕ), (3 : ℚ))] Prod.snd
        Prod.fst (0.8, 0.95)).map (·.cumPerc)).getLast? = some (.fin 1) :=
  c5_cumulative_share_monotone [((1 : ℕ), (1 : ℚ)), ((2 : ℕ), (3 : ℚ))]
    Prod.snd Prod.fst (0.8, 0.95) (by simp) (by norm_num)

/-- C8: items are sorted by total_value descending with a stable,
deterministic tie-break.  Pandas' descending `sort_values` pre-reverses the
rows, stably argsorts ascending and reverses back, so rows with exactly
equal totals retain their relative order from the grouping step; the
grouping step emits strictly ascending item keys (first conjunct), hence
equal-total rows appear in strictly ascending item order (second conjunct),
and — being a pure function of the input — the order cannot vary across runs
on identical input.  Concretely, the two-item tie {key 1, key 2} with equal
total 1 comes out as [1, 2], the grouping-step order (third conjunct). -/
theorem c8_stable_tie_break {α κ : Type} [LinearOrder κ] [DecidableEq κ]
    (df : List α) (value : α → ℚ) (item : α → κ) (th : ℚ × ℚ) :
    (groupedTotals df value item).Pairwise (fun p q => p.1 < q.1)
    ∧ (abc_segmentation df value item th).Pairwise
        (fun r r' => r'.total < r.total ∨ (r'.total = r.total ∧ r.item < r'.item))
    ∧ (abc_segmentation [((1 : ℕ), (1 : ℚ)), ((2 : ℕ), (1 : ℚ))] Prod.snd Prod.fst
        (0.8, 0.95)).map (·.item) = [1, 2] := by
  have hg : (groupedTotals df value item).Pairwise (fun x y => x.1 < y.1) := by
    refine List.pairwise_map.mpr ?_
    exact sortedUnique_pairwise (df.map item)
  refine ⟨hg, ?_, ?_⟩
  · have hgr : (groupedTotals df value item).reverse.Pairwise
        (fun x y => y.1 < x.1) := by
      rw [List.pairwise_reverse]
      exact hg
    have hsorted := insertionSort_pairwise_lex (fun k k' => k' < k)
      (groupedTotals df value item).reverse hgr
    have hrev : (sort_values_desc (groupedTotals df value item)).Pairwise
        (fun x y => y.2 < x.2 ∨ (y.2 = x.2 ∧ x.1 < y.1)) := by
      rw [sort_values_desc, List.pairwise_reverse]
      exact hsorted
    have hmap := buildRows_map_pair th
      ((sort_values_desc (groupedTotals df value item)).map Prod.snd).sum 0
      (sort_values_desc (groupedTotals df value item))
    have hrows : ((abc_segmentation df value item th).map
        (fun r => (r.item, r.total))).Pairwise
        (fun x y => y.2 < x.2 ∨ (y.2 = x.2 ∧ x.1 < y.1)) := by
      show ((buildRows th _ 0 _).map (fun r => (r.item, r.total))).Pairwise _
      rw [hmap]
      exact hrev
    exact List.pairwise_map.mp hrows
  · norm_num [abc_segmentation, groupedTotals, sortedUnique, insSortedU,
      sort_values_desc, insertionSort, ordInsert, buildRows, pdiv, get_category,
      PFloat.le]

/-- C1 witness: the amended theorem applied to the concrete all-zero input
{(item 1, value 0)}. -/
theorem c1_zero_total_nan_rows_witness :
    (abc_segmentation [((1 : ℕ), (0 : ℚ))] Prod.snd Prod.fst (0.8, 0.95)).length
      = (sortedUnique ([((1 : ℕ), (0 : ℚ))].map Prod.fst)).length
    ∧ ∀ r ∈ abc_segmentation [((1 : ℕ), (0 : ℚ))] Prod.snd Prod.fst (0.8, 0.95),
        r.cumPerc = .nan ∧ r.category = 'C' :=
  c1_zero_total_nan_rows [((1 : ℕ), (0 : ℚ))] Prod.snd Prod.fst (0.8, 0.95)
    (by intro x hx; simp at hx; rw [hx])
